import Mathlib

/-!
Verification development for the Streaming-DMD repository (sDMD/sDMD.py).

The Python source is shallowly embedded over exact rational arithmetic:
matrices become a `Mat` structure carrying explicit row and column counts
together with a total entry function, and each method of the source becomes
a Lean function translated statement by statement.  The numeric kernels that
have no closed form (the numpy functions `svd`, `eig`, the Euclidean norm used only to
scale the appended basis direction, and `pinv`) are abstracted as oracle
parameters; the claims settled here depend on those kernels only through
their shape contracts, which are stated explicitly where needed.
-/

/-- Return status of `sDMD_base.update` (class `Status` in the source). -/
inductive Status where
  | NONE
  | AUGMENTATION
  | REDUCTION
  deriving DecidableEq, Repr

/-- Rational matrix with explicit shape and a total entry function.
Entries outside the stated bounds are irrelevant junk, as in a numpy view. -/
structure Mat where
  rows : Nat
  cols : Nat
  entry : Nat → Nat → ℚ

/-- Transpose (numpy `.T`; `.conj()` is the identity over ℚ). -/
def Mat.transpose (M : Mat) : Mat :=
  ⟨M.cols, M.rows, fun i j => M.entry j i⟩

/-- Matrix product (numpy `@`). -/
def Mat.mul (A B : Mat) : Mat :=
  ⟨A.rows, B.cols, fun i j => ∑ k ∈ Finset.range A.cols, A.entry i k * B.entry k j⟩

/-- Entrywise sum; shapes agree at every use site in the source. -/
def Mat.add (A B : Mat) : Mat :=
  ⟨A.rows, A.cols, fun i j => A.entry i j + B.entry i j⟩

/-- Entrywise difference. -/
def Mat.sub (A B : Mat) : Mat :=
  ⟨A.rows, A.cols, fun i j => A.entry i j - B.entry i j⟩

/-- Scalar multiple. -/
def Mat.smul (c : ℚ) (A : Mat) : Mat :=
  ⟨A.rows, A.cols, fun i j => c * A.entry i j⟩

/-- Horizontal concatenation (numpy `np.hstack`). -/
def Mat.hstack (A B : Mat) : Mat :=
  ⟨A.rows, A.cols + B.cols, fun i j => if j < A.cols then A.entry i j else B.entry i (j - A.cols)⟩

/-- Vertical concatenation (numpy `np.vstack`). -/
def Mat.vstack (A B : Mat) : Mat :=
  ⟨A.rows + B.rows, A.cols, fun i j => if i < A.rows then A.entry i j else B.entry (i - A.rows) j⟩

/-- All-zero matrix (numpy `np.zeros`). -/
def Mat.zeros (m n : Nat) : Mat :=
  ⟨m, n, fun _ _ => 0⟩

/-- Column slice `M[:, idx]` for an explicit list of column indices
(used for `eigvec[:, indx[:rmin]]` in the compression step). -/
def Mat.selectCols (M : Mat) (idx : List Nat) : Mat :=
  ⟨M.rows, idx.length, fun i j => M.entry i (idx.getD j 0)⟩

/-- Diagonal matrix from a list (numpy `np.diag`). -/
def diagOf (l : List ℚ) : Mat :=
  ⟨l.length, l.length, fun i j => if i = j then l.getD i 0 else 0⟩

/-- Squared Euclidean norm of a column vector.  The source compares
`norm(e) / norm(v) > thres`; over exact arithmetic with `0 ≤ thres` and
`v ≠ 0` this is equivalent to the square-free comparison
`normSq e > thres ^ 2 * normSq v`, which is how the residual test is
embedded (the square root of a rational is not rational). -/
def colNormSq (v : Mat) : ℚ :=
  ∑ i ∈ Finset.range v.rows, v.entry i 0 ^ 2

/-- Residual test of `sDMD_base.update` (numerator of Eq. (14), lines
124 and 131 of the source): decides `norm(v - U @ U.T @ v) / norm(v) > thres`
via the squared comparison. -/
def residExceeds (thres : ℚ) (U v : Mat) : Bool :=
  decide (thres ^ 2 * colNormSq v < colNormSq (v.sub (U.mul (U.transpose.mul v))))

/-- Index list sorting `v` in descending value order, embedding
`np.argsort(-eigval)` (modeled with a stable insertion sort; the numpy
default quicksort may permute tied indices differently, which never
changes the list of indexed values). -/
def argsortDesc (v : List ℚ) : List Nat :=
  List.insertionSort (fun i j => v.getD j 0 ≤ v.getD i 0) (List.range v.length)

/-- Ascending value sort, embedding `np.sort`. -/
def sortAscQ (l : List ℚ) : List ℚ :=
  List.insertionSort (fun a b => a ≤ b) l

/-- Descending value sort written exactly as the y-side compression writes
it: `-np.sort(-eigval)` (line 168 of the source). -/
def sortDescVals (v : List ℚ) : List ℚ :=
  (sortAscQ (v.map (fun a => -a))).map (fun a => -a)

/-- Values of `v` indexed by the descending argsort permutation, written
exactly as the x-side compression writes it: `eigval = eigval[indx]` with
`indx = np.argsort(-eigval)` (lines 155 and 156 of the source). -/
def permutedDescVals (v : List ℚ) : List ℚ :=
  (argsortDesc v).map (fun i => v.getD i 0)

/-- State of `sDMD_base`: the fields assigned in `__init__` and mutated by
`update`.  `rho` is stored as the rational the update loop multiplies by;
the transcendental constructor expression `2 ** (-1 / halflife)` of line 97
is embedded separately as `rhoOf`. -/
structure SDMD where
  rmin : Nat
  rmax : Nat
  thres : ℚ
  rho : ℚ
  Ux : Mat
  Uy : Mat
  Q : Mat
  Pinvx : Mat
  Pinvy : Mat

/-- Line 97 of the source: `self.rho = 1 if halflife is None else 2 ** (-1 / halflife)`. -/
noncomputable def rhoOf (halflife : Option ℝ) : ℝ :=
  match halflife with
  | none => 1
  | some h => (2 : ℝ) ^ (-1 / h)

/-- Rank augmentation of `Ux` (source lines 131 to 139).  `nrm` abstracts
`np.linalg.norm` as used to normalize the appended residual direction; its
value never influences shapes or statuses.  The inputs are column vectors,
on which the reshape of source line 114 is the identity. -/
def augX (nrm : Mat → ℚ) (st : SDMD) (x : Mat) : SDMD × Status :=
  if residExceeds st.thres st.Ux x then
    let ex := x.sub (st.Ux.mul (st.Ux.transpose.mul x))
    let u_new := Mat.smul (1 / nrm ex) ex
    ({ st with
        Ux := st.Ux.hstack u_new,
        Pinvx := (st.Pinvx.hstack (Mat.zeros st.Pinvx.rows 1)).vstack
          (Mat.zeros 1 (st.Pinvx.cols + 1)),
        Q := st.Q.hstack (Mat.zeros st.Q.rows 1) },
      Status.AUGMENTATION)
  else (st, Status.NONE)

/-- Rank augmentation of `Uy` (source lines 142 to 149); runs on the state
already updated by `augX`, so the zero row appended to `Q` has the current
(possibly widened) column count. -/
def augY (nrm : Mat → ℚ) (st : SDMD) (y : Mat) : SDMD × Status :=
  if residExceeds st.thres st.Uy y then
    let ey := y.sub (st.Uy.mul (st.Uy.transpose.mul y))
    let u_new := Mat.smul (1 / nrm ey) ey
    ({ st with
        Uy := st.Uy.hstack u_new,
        Pinvy := (st.Pinvy.hstack (Mat.zeros st.Pinvy.rows 1)).vstack
          (Mat.zeros 1 (st.Pinvy.cols + 1)),
        Q := st.Q.vstack (Mat.zeros 1 st.Q.cols) },
      Status.AUGMENTATION)
  else (st, Status.NONE)

/-- Rank reduction of `Ux` (source lines 153 to 162).  `eig` abstracts
`np.linalg.eig`, returning the eigenvalue list and the eigenvector matrix;
`Pinvx` is symmetric in exact arithmetic so the eigenvalues are modeled as
rationals.  Overwrites an `AUGMENTATION` status from the same call. -/
def compressX (eig : Mat → List ℚ × Mat) (st : SDMD) (sx : Status) : SDMD × Status :=
  if st.rmax < st.Ux.cols then
    let ev := (eig st.Pinvx).1
    let qx := (eig st.Pinvx).2.selectCols ((argsortDesc ev).take st.rmin)
    ({ st with
        Ux := st.Ux.mul qx,
        Q := st.Q.mul qx,
        Pinvx := diagOf ((permutedDescVals ev).take st.rmin) },
      Status.REDUCTION)
  else (st, sx)

/-- Rank reduction of `Uy` (source lines 165 to 174).  Unlike the x side,
the eigenvalue array written to the diagonal is recomputed as
`-np.sort(-eigval)` rather than indexed by the argsort permutation. -/
def compressY (eig : Mat → List ℚ × Mat) (st : SDMD) (sy : Status) : SDMD × Status :=
  if st.rmax < st.Uy.cols then
    let ev := (eig st.Pinvy).1
    let qy := (eig st.Pinvy).2.selectCols ((argsortDesc ev).take st.rmin)
    ({ st with
        Uy := st.Uy.mul qy,
        Q := qy.transpose.mul st.Q,
        Pinvy := diagOf ((sortDescVals ev).take st.rmin) },
      Status.REDUCTION)
  else (st, sy)

/-- Steps 1 and 2 of `sDMD_base.update`: basis expansion then POD
compression, in the fixed order of the source (x augment, y augment, x compress,
y compress). -/
def stage12 (nrm : Mat → ℚ) (eig : Mat → List ℚ × Mat) (st : SDMD) (x y : Mat) :
    SDMD × Status × Status :=
  let px := augX nrm st x
  let py := augY nrm px.1 y
  let cx := compressX eig py.1 px.2
  let cy := compressY eig cx.1 py.2
  (cy.1, cx.2, cy.2)

/-- Step 3 of `sDMD_base.update` (source lines 176 to 183): re-project the
inputs into the possibly changed bases and apply the rank 1 exponentially
weighted update to the three statistics. -/
def regressionStage (st : SDMD) (x y : Mat) : SDMD :=
  let xtilde := st.Ux.transpose.mul x
  let ytilde := st.Uy.transpose.mul y
  { st with
      Q := (Mat.smul st.rho st.Q).add (ytilde.mul xtilde.transpose),
      Pinvx := (Mat.smul st.rho st.Pinvx).add (xtilde.mul xtilde.transpose),
      Pinvy := (Mat.smul st.rho st.Pinvy).add (ytilde.mul ytilde.transpose) }

/-- Row-major flatten to a single column, embedding the
`reshape([-1, 1])` of source line 114 (the identity on column vectors up to
dropped junk entries). -/
def Mat.reshapeCol (M : Mat) : Mat :=
  ⟨M.rows * M.cols, 1, fun i _ => M.entry (i / M.cols) (i % M.cols)⟩

/-- Embedding of `sDMD_base.update` (source lines 113 to 185): reshape the
inputs to columns, then the three stages in order, returning the new state
and the status pair. -/
def SDMD.update (nrm : Mat → ℚ) (eig : Mat → List ℚ × Mat) (st : SDMD) (x y : Mat) :
    SDMD × Status × Status :=
  let xc := x.reshapeCol
  let yc := y.reshapeCol
  let s12 := stage12 nrm eig st xc yc
  (regressionStage s12.1 xc yc, s12.2)

/-- Shape contract of the abstracted `np.linalg.eig`: on a (square) input it
returns as many eigenvalues as the input has rows, and a square eigenvector
matrix of the same size. -/
def EigSpec (eig : Mat → List ℚ × Mat) : Prop :=
  ∀ A : Mat, (eig A).1.length = A.rows ∧ (eig A).2.rows = A.rows ∧ (eig A).2.cols = A.rows

/-- Trivial eigendecomposition oracle used to instantiate witnesses. -/
def trivEig (A : Mat) : List ℚ × Mat :=
  (List.replicate A.rows 0, ⟨A.rows, A.rows, fun i j => if i = j then 1 else 0⟩)

/-- Shape invariant of the sufficient statistics: `Q` is
`(rank(Uy), rank(Ux))`, `Pinvx` is square of size `rank(Ux)` and `Pinvy` is
square of size `rank(Uy)`. -/
def WF (st : SDMD) : Prop :=
  st.Q.rows = st.Uy.cols ∧ st.Q.cols = st.Ux.cols ∧
  st.Pinvx.rows = st.Ux.cols ∧ st.Pinvx.cols = st.Ux.cols ∧
  st.Pinvy.rows = st.Uy.cols ∧ st.Pinvy.cols = st.Uy.cols

instance (st : SDMD) : Decidable (WF st) := by
  unfold WF; infer_instance

/-- Running partial sums. -/
def cumsumAux : ℚ → List ℚ → List ℚ
  | _, [] => []
  | acc, a :: l => (acc + a) :: cumsumAux (acc + a) l

/-- Embedding of `np.cumsum`. -/
def cumsum (l : List ℚ) : List ℚ := cumsumAux 0 l

/-- Embedding of `np.searchsorted(a, v)` with the default left side on an
ascending `a`: the count of elements strictly below `v`. -/
def searchsortedLeft (a : List ℚ) (v : ℚ) : Nat :=
  a.countP (fun x => decide (x < v))

/-- Column slice `M[:, :k]` (Python slicing truncates silently). -/
def Mat.takeColsN (M : Mat) (k : Nat) : Mat :=
  ⟨M.rows, min k M.cols, M.entry⟩

/-- Embedding of `truncatedSVD` (source lines 59 to 83).  `svd` abstracts
`np.linalg.svd(X, full_matrices=False)`, returning `(U, S, Vh)`; the code
then transposes `Vh` (conjugation is the identity over ℚ).  The rank
parameter is carried as a rational: the `r >= 1` branch is exercised by the
claims only at integer `r`, where the floor is exact.  When neither branch
assigns a rank (in particular at the documented `r = -1`), the Python
raises `UnboundLocalError`; that outcome is `none`. -/
def truncatedSVD (svd : Mat → Mat × List ℚ × Mat) (X : Mat) (r : ℚ) :
    Option (Mat × List ℚ × Mat) :=
  let U := (svd X).1
  let S := (svd X).2.1
  let V := (svd X).2.2.transpose
  let rank? : Option Nat :=
    if 1 ≤ r then some (min (Int.toNat ⌊r⌋) U.cols)
    else if 0 < r ∧ r < 1 then
      let total := (S.map (fun a => a ^ 2)).sum
      some (searchsortedLeft (cumsum (S.map (fun a => a ^ 2 / total))) r + 1)
    else none
  rank?.map (fun rank => (U.takeColsN rank, S.take rank, V.takeColsN rank))

/-- Embedding of `sDMD_base.__init__` (source lines 91 to 111): factor the
two batches at rank `rmin`, project them, and form the three statistics.
`rho` is passed as the already computed forgetting factor (line 97 itself is
`rhoOf`); `none` propagates a failed truncation. -/
def sDMD_base_init (svd : Mat → Mat × List ℚ × Mat) (X Y : Mat) (rmin rmax : Nat)
    (thres rho : ℚ) : Option SDMD :=
  match truncatedSVD svd X (rmin : ℚ), truncatedSVD svd Y (rmin : ℚ) with
  | some ux, some uy =>
    let Xt := ux.1.transpose.mul X
    let Yt := uy.1.transpose.mul Y
    some ⟨rmin, rmax, thres, rho, ux.1, uy.1, Yt.mul Xt.transpose, Xt.mul Xt.transpose,
      Yt.mul Yt.transpose⟩
  | _, _ => none

/-- Modelled from the spec: the delay-line collaborators `Stacker` and
`Delayer` live in `sDMD/utilities.py`, which is not under src/; this buffer
realizes the contract of section 6 of the spec (fixed-length FIFO of column
vectors, newest first, push-on-update, drop-oldest). -/
structure Buffer where
  dim : Nat
  depth : Nat
  buf : List Mat

/-- Push a sample, dropping the oldest beyond `depth`. -/
def Buffer.push (b : Buffer) (v : Mat) : Buffer :=
  { b with buf := (v :: b.buf).take b.depth }

/-- Modelled from the spec: the stacked `(dim * depth, 1)` vector held by a
`Stacker`, with the most recent block in the first row partition (the
convention of `hankel_transform`); slots not yet seen read as zero. -/
def Buffer.stackVal (b : Buffer) : Mat :=
  ⟨b.dim * b.depth, 1, fun i _ =>
    (b.buf.getD (i / b.dim) (Mat.zeros b.dim 1)).entry (i % b.dim) 0⟩

/-- Modelled from the spec: `Stacker.update` pushes the new sample and
returns the current stacked vector (the no-argument peek returns the same
value without mutating, which is `Buffer.stackVal`). -/
def Buffer.stackerUpdate (b : Buffer) (v : Mat) : Mat × Buffer :=
  let b2 := b.push v
  (b2.stackVal, b2)

/-- Modelled from the spec: `Delayer.update` pushes the new sample and
returns the sample from `delay` steps back, read from the buffer before the
push; it reads as zero while fewer than `delay` samples have been seen. -/
def Buffer.delayerUpdate (b : Buffer) (v : Mat) : Mat × Buffer :=
  (b.buf.getD (b.depth - 1) (Mat.zeros b.dim 1), b.push v)

/-- State of `sDMDc` (the control, state-output variant): the inherited
`sDMD_base` state plus the adapter configuration and the three live delay
buffers set up in `__init__`. -/
structure SDMDc where
  core : SDMD
  s : Nat
  f : Nat
  nx : Nat
  nu : Nat
  Xstack0 : Buffer
  Xstack1 : Buffer
  Ustack : Buffer

/-- Row slice `M[:k, 0]` reshaped back to a column; `min` mirrors Python
slicing, which truncates silently when fewer than `k` rows exist. -/
def Mat.takeRowsCol (M : Mat) (k : Nat) : Mat :=
  ⟨min k M.rows, 1, fun i _ => M.entry i 0⟩

/-- Embedding of `sDMDc.predict_next_raw_state_from_augmented` (source
lines 406 to 442).  `pinv` abstracts `np.linalg.pinv` inside the derived
operator `A = Q @ pinv(Pinvx)` of line 196.  `none` stands for the all-NaN
`(nx, 1)` sentinel; the `A is None` guard is vacuous for a constructed
instance because `A` is a computed property, and the `try/except` arm
cannot fire under exact, total arithmetic. -/
def predict_next_raw_state_from_augmented (pinv : Mat → Mat) (st : SDMDc)
    (aug : Mat) : Option Mat :=
  if aug.rows ≠ st.core.Ux.rows then none
  else
    let A := st.core.Q.mul (pinv st.core.Pinvx)
    let y_reduced := A.mul (st.core.Ux.transpose.mul aug)
    let y_hank := st.core.Uy.mul y_reduced
    some (y_hank.takeRowsCol st.nx)

/-- Python and numpy column access `M[:, j]` with negative-index
wraparound; `none` is an `IndexError`. -/
def Mat.colAt (M : Mat) (j : Int) : Option Mat :=
  let jj : Int := if j < 0 then (M.cols : Int) + j else j
  if 0 ≤ jj ∧ jj < (M.cols : Int) then
    some ⟨M.rows, 1, fun i _ => M.entry i jj.toNat⟩
  else none

/-- Python list access `l[-k]` for `k ≥ 1`; `none` is an `IndexError`. -/
def pyGetNeg {α : Type} (l : List α) (k : Nat) : Option α :=
  if 1 ≤ k ∧ k ≤ l.length then l.get? (l.length - k) else none

/-- Failure modes of `predict_horizon` that reach the caller: the explicit
`ValueError` of the validation block, and a numpy `IndexError` from an
out-of-range column read. -/
inductive PredErr where
  | dimError
  | indexError
  deriving DecidableEq, Repr

/-- Source lines 500 to 501: prime the temporary state stacker with the
last `s` history columns (negative indices `-(s-i)`). -/
def primeX0 (st : SDMDc) (xh : Mat) : Option Buffer :=
  (List.range st.s).foldlM
    (fun b i => (xh.colAt (-((st.s - i : Nat) : Int))).map b.push)
    (Buffer.mk st.nx st.s [])

/-- Source lines 503 to 508: replay the first `s + f - 1` history columns
through a scratch stacker, collecting its peeked stacked vector from index
`s - 1` on. -/
def buildTempHist (st : SDMDc) (xh : Mat) : Option (List Mat) :=
  ((List.range (st.s + st.f - 1)).foldlM
    (fun (p : Buffer × List Mat) i =>
      (xh.colAt (i : Int)).map (fun c =>
        let b := p.1.push c
        (b, if st.s - 1 ≤ i then p.2 ++ [b.stackVal] else p.2)))
    (Buffer.mk st.nx st.s [], ([] : List Mat))).map Prod.snd

/-- Source lines 509 to 510: prime the temporary delayed-state buffer with
the last `f` collected stacked vectors, oldest first. -/
def primeX1 (st : SDMDc) (hist : List Mat) : Option Buffer :=
  (List.range st.f).foldlM
    (fun b i => (pyGetNeg hist (st.f - i)).map b.push)
    (Buffer.mk (st.nx * st.s) st.f [])

/-- Source lines 512 to 513: prime the temporary control buffer with the
first `f` columns of the supplied control sequence. -/
def primeU (st : SDMDc) (u : Mat) : Option Buffer :=
  (List.range st.f).foldlM
    (fun b i => (u.colAt (i : Int)).map b.push)
    (Buffer.mk st.nu st.f [])

/-- Source lines 517 to 534, the iterative prediction loop, by recursion on
the remaining step count with `i` the current 0-based step index.  `none`
is the `IndexError` escaping from the control read `u[:, f + i]`; an
all-NaN single-step prediction returns the columns accumulated so far. -/
def horizonLoop (pinv : Mat → Mat) (st : SDMDc) (u : Mat) :
    Nat → Nat → Buffer → Buffer → Buffer → Mat → List Mat → Option (List Mat)
  | 0, _, _, _, _, _, acc => some acc
  | fuel + 1, i, b0, b1, bu, cx, acc =>
    match u.colAt ((st.f + i : Nat) : Int) with
    | none => none
    | some ucol =>
      let r0 := b0.stackerUpdate cx
      let r1 := b1.delayerUpdate r0.1
      let ru := bu.delayerUpdate ucol
      let aug := r1.1.vstack ru.1
      match predict_next_raw_state_from_augmented pinv st aug with
      | none => some acc
      | some p => horizonLoop pinv st u fuel (i + 1) r0.2 r1.2 ru.2 p (acc ++ [p])

/-- Assemble an `nx` by `length` matrix from predicted columns: this is the
preallocated `predicted_X_raw_horizon` with its columns written in order,
together with the `[:, :i]` slice taken by the early return. -/
def colsToMat (nxv : Nat) (l : List Mat) : Mat :=
  ⟨nxv, l.length, fun i j => (l.getD j (Mat.zeros nxv 1)).entry i 0⟩

/-- Post-validation body of `predict_horizon` (source lines 493 to 536);
`none` is an `IndexError` escaping to the caller. -/
def horizonBody (pinv : Mat → Mat) (st : SDMDc) (xh u : Mat) (steps : Nat) :
    Option Mat := do
  let b0 ← primeX0 st xh
  let hist ← buildTempHist st xh
  let b1 ← primeX1 st hist
  let bu ← primeU st u
  let cx ← xh.colAt (-1)
  let cols ← horizonLoop pinv st u steps 0 b0 b1 bu cx []
  some (colsToMat st.nx cols)

/-- Embedding of `sDMDc.predict_horizon` (source lines 444 to 536) in
state-passing form: the returned `SDMDc` is the live model state after the
call.  The method writes only to freshly allocated locals, so the state
passes through unchanged.  The two validation `ValueError`s come before
everything else; the only caller-visible failure of the body is an `IndexError`.
The `A is None` guard of line 475 is vacuous for a constructed instance. -/
def predict_horizon (pinv : Mat → Mat) (st : SDMDc) (xh u : Mat) (steps : Nat) :
    SDMDc × Except PredErr Mat :=
  (st,
    if xh.rows ≠ st.nx ∨ xh.cols < st.s + st.f - 1 then .error .dimError
    else if u.rows ≠ st.nu ∨ u.cols < steps + st.f - 1 then .error .dimError
    else
      match horizonBody pinv st xh u steps with
      | none => .error .indexError
      | some M => .ok M)

/-- Concrete 1 by 1 all-ones matrix used by witness theorems. -/
def wMat1 : Mat := ⟨1, 1, fun _ _ => 1⟩

/-- Concrete 2 by 1 all-ones matrix used by witness theorems. -/
def wMat21 : Mat := ⟨2, 1, fun _ _ => 1⟩

/-- Concrete `sDMD_base` state used by witness theorems: `rmin = rmax = 1`,
`thres = 0`, `rho = 1`, all matrices 1 by 1. -/
def wSt : SDMD := ⟨1, 1, 0, 1, wMat1, wMat1, wMat1, wMat1, wMat1⟩

/-- Concrete `sDMDc` state used by witness and counterexample theorems:
`s = f = 1`, `nx = nu = 1`, so the augmented input height `nx * s + nu` is 2
and `Ux` is 2 by 1. -/
def wStc : SDMDc :=
  ⟨{ wSt with Ux := wMat21 }, 1, 1, 1, 1, Buffer.mk 1 1 [], Buffer.mk 1 1 [], Buffer.mk 1 1 []⟩

/-- Concrete `sDMD_base` state whose `Uy` is wider than `rmax`, so the
y-side compression fires; used by a witness theorem. -/
def wStRed : SDMD := ⟨0, 0, 0, 1, wMat1, wMat1, wMat1, wMat1, wMat1⟩

/-! From here on, theorems only: first general shape and frame lemmas about
the embedded operations, then the claim theorems. -/

@[simp] theorem Mat.transpose_rows (M : Mat) : M.transpose.rows = M.cols := rfl
@[simp] theorem Mat.transpose_cols (M : Mat) : M.transpose.cols = M.rows := rfl
@[simp] theorem Mat.mul_rows (A B : Mat) : (A.mul B).rows = A.rows := rfl
@[simp] theorem Mat.mul_cols (A B : Mat) : (A.mul B).cols = B.cols := rfl
@[simp] theorem Mat.add_rows (A B : Mat) : (A.add B).rows = A.rows := rfl
@[simp] theorem Mat.add_cols (A B : Mat) : (A.add B).cols = A.cols := rfl
@[simp] theorem Mat.sub_rows (A B : Mat) : (A.sub B).rows = A.rows := rfl
@[simp] theorem Mat.sub_cols (A B : Mat) : (A.sub B).cols = A.cols := rfl
@[simp] theorem Mat.smul_rows (c : ℚ) (A : Mat) : (A.smul c).rows = A.rows := rfl
@[simp] theorem Mat.smul_cols (c : ℚ) (A : Mat) : (A.smul c).cols = A.cols := rfl
@[simp] theorem Mat.hstack_rows (A B : Mat) : (A.hstack B).rows = A.rows := rfl
@[simp] theorem Mat.hstack_cols (A B : Mat) : (A.hstack B).cols = A.cols + B.cols := rfl
@[simp] theorem Mat.vstack_rows (A B : Mat) : (A.vstack B).rows = A.rows + B.rows := rfl
@[simp] theorem Mat.vstack_cols (A B : Mat) : (A.vstack B).cols = A.cols := rfl
@[simp] theorem Mat.zeros_rows (m n : Nat) : (Mat.zeros m n).rows = m := rfl
@[simp] theorem Mat.zeros_cols (m n : Nat) : (Mat.zeros m n).cols = n := rfl
@[simp] theorem Mat.selectCols_rows (M : Mat) (l : List Nat) : (M.selectCols l).rows = M.rows := rfl
@[simp] theorem Mat.selectCols_cols (M : Mat) (l : List Nat) :
    (M.selectCols l).cols = l.length := rfl
@[simp] theorem diagOf_rows (l : List ℚ) : (diagOf l).rows = l.length := rfl
@[simp] theorem diagOf_cols (l : List ℚ) : (diagOf l).cols = l.length := rfl
@[simp] theorem Mat.reshapeCol_rows (M : Mat) : M.reshapeCol.rows = M.rows * M.cols := rfl
@[simp] theorem Mat.reshapeCol_cols (M : Mat) : M.reshapeCol.cols = 1 := rfl
@[simp] theorem Mat.takeColsN_rows (M : Mat) (k : Nat) : (M.takeColsN k).rows = M.rows := rfl
@[simp] theorem Mat.takeColsN_cols (M : Mat) (k : Nat) :
    (M.takeColsN k).cols = min k M.cols := rfl
@[simp] theorem Mat.takeRowsCol_rows (M : Mat) (k : Nat) :
    (M.takeRowsCol k).rows = min k M.rows := rfl
@[simp] theorem Mat.takeRowsCol_cols (M : Mat) (k : Nat) : (M.takeRowsCol k).cols = 1 := rfl

@[simp] theorem argsortDesc_length (v : List ℚ) : (argsortDesc v).length = v.length := by
  simp [argsortDesc, List.length_insertionSort]

@[simp] theorem permutedDescVals_length (v : List ℚ) :
    (permutedDescVals v).length = v.length := by
  simp [permutedDescVals]

@[simp] theorem sortDescVals_length (v : List ℚ) : (sortDescVals v).length = v.length := by
  simp [sortDescVals, sortAscQ, List.length_insertionSort]

/-- The trivial eigendecomposition oracle meets the shape contract. -/
theorem trivEig_spec : EigSpec trivEig := by
  intro A
  refine ⟨?_, rfl, rfl⟩
  simp [trivEig]

theorem augX_false (nrm : Mat → ℚ) (st : SDMD) (x : Mat)
    (h : residExceeds st.thres st.Ux x = false) : augX nrm st x = (st, Status.NONE) := by
  simp [augX, h]

theorem augX_snd (nrm : Mat → ℚ) (st : SDMD) (x : Mat) :
    (augX nrm st x).2 =
      if residExceeds st.thres st.Ux x = true then Status.AUGMENTATION else Status.NONE := by
  unfold augX; split <;> simp_all

theorem augX_Uy (nrm : Mat → ℚ) (st : SDMD) (x : Mat) : (augX nrm st x).1.Uy = st.Uy := by
  unfold augX; split <;> rfl

theorem augX_Pinvy (nrm : Mat → ℚ) (st : SDMD) (x : Mat) :
    (augX nrm st x).1.Pinvy = st.Pinvy := by
  unfold augX; split <;> rfl

theorem augX_rmin (nrm : Mat → ℚ) (st : SDMD) (x : Mat) : (augX nrm st x).1.rmin = st.rmin := by
  unfold augX; split <;> rfl

theorem augX_rmax (nrm : Mat → ℚ) (st : SDMD) (x : Mat) : (augX nrm st x).1.rmax = st.rmax := by
  unfold augX; split <;> rfl

theorem augX_thres (nrm : Mat → ℚ) (st : SDMD) (x : Mat) :
    (augX nrm st x).1.thres = st.thres := by
  unfold augX; split <;> rfl

theorem augX_rho (nrm : Mat → ℚ) (st : SDMD) (x : Mat) : (augX nrm st x).1.rho = st.rho := by
  unfold augX; split <;> rfl

theorem augX_Ux_cols (nrm : Mat → ℚ) (st : SDMD) (x : Mat) (hx : x.cols = 1) :
    (augX nrm st x).1.Ux.cols =
      st.Ux.cols + (if residExceeds st.thres st.Ux x = true then 1 else 0) := by
  unfold augX; split <;> simp_all

theorem augX_Pinvx_rows (nrm : Mat → ℚ) (st : SDMD) (x : Mat) :
    (augX nrm st x).1.Pinvx.rows =
      st.Pinvx.rows + (if residExceeds st.thres st.Ux x = true then 1 else 0) := by
  unfold augX; split <;> simp_all

theorem augX_Pinvx_cols (nrm : Mat → ℚ) (st : SDMD) (x : Mat) :
    (augX nrm st x).1.Pinvx.cols =
      st.Pinvx.cols + (if residExceeds st.thres st.Ux x = true then 1 else 0) := by
  unfold augX; split <;> simp_all

theorem augX_Q_rows (nrm : Mat → ℚ) (st : SDMD) (x : Mat) :
    (augX nrm st x).1.Q.rows = st.Q.rows := by
  unfold augX; split <;> rfl

theorem augX_Q_cols (nrm : Mat → ℚ) (st : SDMD) (x : Mat) :
    (augX nrm st x).1.Q.cols =
      st.Q.cols + (if residExceeds st.thres st.Ux x = true then 1 else 0) := by
  unfold augX; split <;> simp_all

theorem augY_false (nrm : Mat → ℚ) (st : SDMD) (y : Mat)
    (h : residExceeds st.thres st.Uy y = false) : augY nrm st y = (st, Status.NONE) := by
  simp [augY, h]

theorem augY_snd (nrm : Mat → ℚ) (st : SDMD) (y : Mat) :
    (augY nrm st y).2 =
      if residExceeds st.thres st.Uy y = true then Status.AUGMENTATION else Status.NONE := by
  unfold augY; split <;> simp_all

theorem augY_Ux (nrm : Mat → ℚ) (st : SDMD) (y : Mat) : (augY nrm st y).1.Ux = st.Ux := by
  unfold augY; split <;> rfl

theorem augY_Pinvx (nrm : Mat → ℚ) (st : SDMD) (y : Mat) :
    (augY nrm st y).1.Pinvx = st.Pinvx := by
  unfold augY; split <;> rfl

theorem augY_rmin (nrm : Mat → ℚ) (st : SDMD) (y : Mat) : (augY nrm st y).1.rmin = st.rmin := by
  unfold augY; split <;> rfl

theorem augY_rmax (nrm : Mat → ℚ) (st : SDMD) (y : Mat) : (augY nrm st y).1.rmax = st.rmax := by
  unfold augY; split <;> rfl

theorem augY_thres (nrm : Mat → ℚ) (st : SDMD) (y : Mat) :
    (augY nrm st y).1.thres = st.thres := by
  unfold augY; split <;> rfl

theorem augY_rho (nrm : Mat → ℚ) (st : SDMD) (y : Mat) : (augY nrm st y).1.rho = st.rho := by
  unfold augY; split <;> rfl

theorem augY_Uy_cols (nrm : Mat → ℚ) (st : SDMD) (y : Mat) (hy : y.cols = 1) :
    (augY nrm st y).1.Uy.cols =
      st.Uy.cols + (if residExceeds st.thres st.Uy y = true then 1 else 0) := by
  unfold augY; split <;> simp_all

theorem augY_Pinvy_rows (nrm : Mat → ℚ) (st : SDMD) (y : Mat) :
    (augY nrm st y).1.Pinvy.rows =
      st.Pinvy.rows + (if residExceeds st.thres st.Uy y = true then 1 else 0) := by
  unfold augY; split <;> simp_all

theorem augY_Pinvy_cols (nrm : Mat → ℚ) (st : SDMD) (y : Mat) :
    (augY nrm st y).1.Pinvy.cols =
      st.Pinvy.cols + (if residExceeds st.thres st.Uy y = true then 1 else 0) := by
  unfold augY; split <;> simp_all

theorem augY_Q_cols (nrm : Mat → ℚ) (st : SDMD) (y : Mat) :
    (augY nrm st y).1.Q.cols = st.Q.cols := by
  unfold augY; split <;> simp_all

theorem augY_Q_rows (nrm : Mat → ℚ) (st : SDMD) (y : Mat) :
    (augY nrm st y).1.Q.rows =
      st.Q.rows + (if residExceeds st.thres st.Uy y = true then 1 else 0) := by
  unfold augY; split <;> simp_all

theorem compressX_not (eig : Mat → List ℚ × Mat) (st : SDMD) (sx : Status)
    (h : ¬ st.rmax < st.Ux.cols) : compressX eig st sx = (st, sx) := by
  simp [compressX, h]

theorem compressX_snd (eig : Mat → List ℚ × Mat) (st : SDMD) (sx : Status) :
    (compressX eig st sx).2 =
      if st.rmax < st.Ux.cols then Status.REDUCTION else sx := by
  unfold compressX; split <;> simp_all

theorem compressX_Uy (eig : Mat → List ℚ × Mat) (st : SDMD) (sx : Status) :
    (compressX eig st sx).1.Uy = st.Uy := by
  unfold compressX; split <;> rfl

theorem compressX_Pinvy (eig : Mat → List ℚ × Mat) (st : SDMD) (sx : Status) :
    (compressX eig st sx).1.Pinvy = st.Pinvy := by
  unfold compressX; split <;> rfl

theorem compressX_rmin (eig : Mat → List ℚ × Mat) (st : SDMD) (sx : Status) :
    (compressX eig st sx).1.rmin = st.rmin := by
  unfold compressX; split <;> rfl

theorem compressX_rmax (eig : Mat → List ℚ × Mat) (st : SDMD) (sx : Status) :
    (compressX eig st sx).1.rmax = st.rmax := by
  unfold compressX; split <;> rfl

theorem compressX_thres (eig : Mat → List ℚ × Mat) (st : SDMD) (sx : Status) :
    (compressX eig st sx).1.thres = st.thres := by
  unfold compressX; split <;> rfl

theorem compressX_rho (eig : Mat → List ℚ × Mat) (st : SDMD) (sx : Status) :
    (compressX eig st sx).1.rho = st.rho := by
  unfold compressX; split <;> rfl

theorem compressX_Q_rows (eig : Mat → List ℚ × Mat) (st : SDMD) (sx : Status) :
    (compressX eig st sx).1.Q.rows = st.Q.rows := by
  unfold compressX; split <;> rfl

theorem compressX_Ux_cols (eig : Mat → List ℚ × Mat) (st : SDMD) (sx : Status)
    (heig : EigSpec eig) :
    (compressX eig st sx).1.Ux.cols =
      if st.rmax < st.Ux.cols then min st.rmin st.Pinvx.rows else st.Ux.cols := by
  unfold compressX; split <;> simp_all [(heig st.Pinvx).1]

theorem compressX_Q_cols (eig : Mat → List ℚ × Mat) (st : SDMD) (sx : Status)
    (heig : EigSpec eig) :
    (compressX eig st sx).1.Q.cols =
      if st.rmax < st.Ux.cols then min st.rmin st.Pinvx.rows else st.Q.cols := by
  unfold compressX; split <;> simp_all [(heig st.Pinvx).1]

theorem compressX_Pinvx_rows (eig : Mat → List ℚ × Mat) (st : SDMD) (sx : Status)
    (heig : EigSpec eig) :
    (compressX eig st sx).1.Pinvx.rows =
      if st.rmax < st.Ux.cols then min st.rmin st.Pinvx.rows else st.Pinvx.rows := by
  unfold compressX; split <;> simp_all [(heig st.Pinvx).1]

theorem compressY_not (eig : Mat → List ℚ × Mat) (st : SDMD) (sy : Status)
    (h : ¬ st.rmax < st.Uy.cols) : compressY eig st sy = (st, sy) := by
  simp [compressY, h]

theorem compressY_snd (eig : Mat → List ℚ × Mat) (st : SDMD) (sy : Status) :
    (compressY eig st sy).2 =
      if st.rmax < st.Uy.cols then Status.REDUCTION else sy := by
  unfold compressY; split <;> simp_all

theorem compressY_Ux (eig : Mat → List ℚ × Mat) (st : SDMD) (sy : Status) :
    (compressY eig st sy).1.Ux = st.Ux := by
  unfold compressY; split <;> rfl

theorem compressY_Pinvx (eig : Mat → List ℚ × Mat) (st : SDMD) (sy : Status) :
    (compressY eig st sy).1.Pinvx = st.Pinvx := by
  unfold compressY; split <;> rfl

theorem compressY_rmin (eig : Mat → List ℚ × Mat) (st : SDMD) (sy : Status) :
    (compressY eig st sy).1.rmin = st.rmin := by
  unfold compressY; split <;> rfl

theorem compressY_rmax (eig : Mat → List ℚ × Mat) (st : SDMD) (sy : Status) :
    (compressY eig st sy).1.rmax = st.rmax := by
  unfold compressY; split <;> rfl

theorem compressY_thres (eig : Mat → List ℚ × Mat) (st : SDMD) (sy : Status) :
    (compressY eig st sy).1.thres = st.thres := by
  unfold compressY; split <;> rfl

theorem compressY_rho (eig : Mat → List ℚ × Mat) (st : SDMD) (sy : Status) :
    (compressY eig st sy).1.rho = st.rho := by
  unfold compressY; split <;> rfl

theorem compressY_Q_cols (eig : Mat → List ℚ × Mat) (st : SDMD) (sy : Status) :
    (compressY eig st sy).1.Q.cols = st.Q.cols := by
  unfold compressY; split <;> rfl

theorem compressY_Uy_cols (eig : Mat → List ℚ × Mat) (st : SDMD) (sy : Status)
    (heig : EigSpec eig) :
    (compressY eig st sy).1.Uy.cols =
      if st.rmax < st.Uy.cols then min st.rmin st.Pinvy.rows else st.Uy.cols := by
  unfold compressY; split <;> simp_all [(heig st.Pinvy).1]

theorem compressY_Q_rows (eig : Mat → List ℚ × Mat) (st : SDMD) (sy : Status)
    (heig : EigSpec eig) :
    (compressY eig st sy).1.Q.rows =
      if st.rmax < st.Uy.cols then min st.rmin st.Pinvy.rows else st.Q.rows := by
  unfold compressY; split <;> simp_all [(heig st.Pinvy).1]

theorem compressY_Pinvy_rows (eig : Mat → List ℚ × Mat) (st : SDMD) (sy : Status)
    (heig : EigSpec eig) :
    (compressY eig st sy).1.Pinvy.rows =
      if st.rmax < st.Uy.cols then min st.rmin st.Pinvy.rows else st.Pinvy.rows := by
  unfold compressY; split <;> simp_all [(heig st.Pinvy).1]

theorem regression_Ux (st : SDMD) (x y : Mat) : (regressionStage st x y).Ux = st.Ux := rfl

theorem regression_Uy (st : SDMD) (x y : Mat) : (regressionStage st x y).Uy = st.Uy := rfl

theorem regression_rho (st : SDMD) (x y : Mat) : (regressionStage st x y).rho = st.rho := rfl

theorem augX_WF (nrm : Mat → ℚ) (st : SDMD) (x : Mat) (hx : x.cols = 1) (h : WF st) :
    WF (augX nrm st x).1 := by
  obtain ⟨h1, h2, h3, h4, h5, h6⟩ := h
  unfold WF
  cases hr : residExceeds st.thres st.Ux x <;> simp [augX, hr, hx] <;> omega

theorem augY_WF (nrm : Mat → ℚ) (st : SDMD) (y : Mat) (hy : y.cols = 1) (h : WF st) :
    WF (augY nrm st y).1 := by
  obtain ⟨h1, h2, h3, h4, h5, h6⟩ := h
  unfold WF
  cases hr : residExceeds st.thres st.Uy y <;> simp [augY, hr, hy] <;> omega

theorem compressX_WF (eig : Mat → List ℚ × Mat) (st : SDMD) (sx : Status) (h : WF st) :
    WF (compressX eig st sx).1 := by
  obtain ⟨h1, h2, h3, h4, h5, h6⟩ := h
  unfold WF
  by_cases hc : st.rmax < st.Ux.cols <;> simp [compressX, hc] <;> omega

theorem compressY_WF (eig : Mat → List ℚ × Mat) (st : SDMD) (sy : Status) (h : WF st) :
    WF (compressY eig st sy).1 := by
  obtain ⟨h1, h2, h3, h4, h5, h6⟩ := h
  unfold WF
  by_cases hc : st.rmax < st.Uy.cols <;> simp [compressY, hc] <;> omega

theorem regression_WF (st : SDMD) (x y : Mat) (h : WF st) : WF (regressionStage st x y) := by
  obtain ⟨h1, h2, h3, h4, h5, h6⟩ := h
  exact ⟨h1, h2, h3, h4, h5, h6⟩

theorem update_sx_char (nrm : Mat → ℚ) (eig : Mat → List ℚ × Mat) (st : SDMD) (x y : Mat) :
    (SDMD.update nrm eig st x y).2.1 =
      if st.rmax <
          st.Ux.cols + (if residExceeds st.thres st.Ux x.reshapeCol = true then 1 else 0) then
        Status.REDUCTION
      else if residExceeds st.thres st.Ux x.reshapeCol = true then Status.AUGMENTATION
      else Status.NONE := by
  simp only [SDMD.update, stage12]
  rw [compressX_snd, augY_rmax, augY_Ux, augX_rmax, augX_Ux_cols _ _ _ rfl, augX_snd]

theorem update_sy_char (nrm : Mat → ℚ) (eig : Mat → List ℚ × Mat) (st : SDMD) (x y : Mat) :
    (SDMD.update nrm eig st x y).2.2 =
      if st.rmax <
          st.Uy.cols + (if residExceeds st.thres st.Uy y.reshapeCol = true then 1 else 0) then
        Status.REDUCTION
      else if residExceeds st.thres st.Uy y.reshapeCol = true then Status.AUGMENTATION
      else Status.NONE := by
  simp only [SDMD.update, stage12]
  rw [compressY_snd, compressX_rmax, compressX_Uy, augY_rmax, augX_rmax,
    augY_Uy_cols _ _ _ rfl, augY_snd, augX_Uy, augX_thres]

theorem update_Ux_cols_char (nrm : Mat → ℚ) (eig : Mat → List ℚ × Mat) (st : SDMD) (x y : Mat)
    (heig : EigSpec eig) (hPx : st.Pinvx.rows = st.Ux.cols) :
    (SDMD.update nrm eig st x y).1.Ux.cols =
      if st.rmax <
          st.Ux.cols + (if residExceeds st.thres st.Ux x.reshapeCol = true then 1 else 0) then
        min st.rmin
          (st.Ux.cols + (if residExceeds st.thres st.Ux x.reshapeCol = true then 1 else 0))
      else
        st.Ux.cols + (if residExceeds st.thres st.Ux x.reshapeCol = true then 1 else 0) := by
  simp only [SDMD.update, stage12]
  rw [regression_Ux, compressY_Ux, compressX_Ux_cols _ _ _ heig, augY_rmax, augY_rmin,
    augY_Ux, augY_Pinvx, augX_rmax, augX_rmin, augX_Ux_cols _ _ _ rfl, augX_Pinvx_rows, hPx]

theorem update_Uy_cols_char (nrm : Mat → ℚ) (eig : Mat → List ℚ × Mat) (st : SDMD) (x y : Mat)
    (heig : EigSpec eig) (hPy : st.Pinvy.rows = st.Uy.cols) :
    (SDMD.update nrm eig st x y).1.Uy.cols =
      if st.rmax <
          st.Uy.cols + (if residExceeds st.thres st.Uy y.reshapeCol = true then 1 else 0) then
        min st.rmin
          (st.Uy.cols + (if residExceeds st.thres st.Uy y.reshapeCol = true then 1 else 0))
      else
        st.Uy.cols + (if residExceeds st.thres st.Uy y.reshapeCol = true then 1 else 0) := by
  simp only [SDMD.update, stage12]
  rw [regression_Uy, compressY_Uy_cols _ _ _ heig, compressX_rmax, compressX_rmin,
    compressX_Uy, compressX_Pinvy, augY_rmax, augY_rmin, augY_Uy_cols _ _ _ rfl,
    augY_Pinvy_rows, augX_rmax, augX_rmin, augX_Uy, augX_thres, augX_Pinvy, hPy]

/-- C1: in a call to `sDMD_base.update` from a reachable state (statistics
shapes consistent, widths at most `rmax`, `rmin ≤ rmax`) with nonzero
inputs and nonnegative threshold: a side whose normalized projection
residual stays at or below `thres` (the squared-comparison encoding of the
test as written in the source) reports NONE and keeps its basis width; a side whose
residual strictly exceeds `thres` gains exactly one basis column and
reports AUGMENTATION, unless the new width exceeds `rmax`, in which case
the width immediately after the call is `rmin` and the status is
REDUCTION, overriding the AUGMENTATION mark from the same call.  Both the
x side and the symmetric y side are stated. -/
theorem C1_update_residual_gate (nrm : Mat → ℚ) (eig : Mat → List ℚ × Mat)
    (st : SDMD) (x y : Mat)
    (heig : EigSpec eig) (hwf : WF st) (hrr : st.rmin ≤ st.rmax)
    (hxnz : 0 < colNormSq x.reshapeCol) (hynz : 0 < colNormSq y.reshapeCol)
    (hth : 0 ≤ st.thres)
    (hxw : st.Ux.cols ≤ st.rmax) (hyw : st.Uy.cols ≤ st.rmax) :
    ((residExceeds st.thres st.Ux x.reshapeCol = false →
        (SDMD.update nrm eig st x y).2.1 = Status.NONE ∧
        (SDMD.update nrm eig st x y).1.Ux.cols = st.Ux.cols) ∧
     (residExceeds st.thres st.Ux x.reshapeCol = true → st.Ux.cols + 1 ≤ st.rmax →
        (SDMD.update nrm eig st x y).2.1 = Status.AUGMENTATION ∧
        (SDMD.update nrm eig st x y).1.Ux.cols = st.Ux.cols + 1) ∧
     (residExceeds st.thres st.Ux x.reshapeCol = true → st.rmax < st.Ux.cols + 1 →
        (SDMD.update nrm eig st x y).2.1 = Status.REDUCTION ∧
        (SDMD.update nrm eig st x y).1.Ux.cols = st.rmin)) ∧
    ((residExceeds st.thres st.Uy y.reshapeCol = false →
        (SDMD.update nrm eig st x y).2.2 = Status.NONE ∧
        (SDMD.update nrm eig st x y).1.Uy.cols = st.Uy.cols) ∧
     (residExceeds st.thres st.Uy y.reshapeCol = true → st.Uy.cols + 1 ≤ st.rmax →
        (SDMD.update nrm eig st x y).2.2 = Status.AUGMENTATION ∧
        (SDMD.update nrm eig st x y).1.Uy.cols = st.Uy.cols + 1) ∧
     (residExceeds st.thres st.Uy y.reshapeCol = true → st.rmax < st.Uy.cols + 1 →
        (SDMD.update nrm eig st x y).2.2 = Status.REDUCTION ∧
        (SDMD.update nrm eig st x y).1.Uy.cols = st.rmin)) := by
  obtain ⟨h1, h2, h3, h4, h5, h6⟩ := hwf
  rw [update_sx_char, update_sy_char, update_Ux_cols_char nrm eig st x y heig h3,
    update_Uy_cols_char nrm eig st x y heig h5]
  refine ⟨⟨?_, ?_, ?_⟩, ⟨?_, ?_, ?_⟩⟩ <;> intro hb
  · simp [hb, Nat.not_lt.mpr hxw]
  · intro hw; simp [hb, Nat.not_lt.mpr hw]
  · intro hw; simp [hb, hw]; omega
  · simp [hb, Nat.not_lt.mpr hyw]
  · intro hw; simp [hb, Nat.not_lt.mpr hw]
  · intro hw; simp [hb, hw]; omega

/-- C1 witness: the theorem instantiated at the concrete fixture state with
every hypothesis discharged by evaluation. -/
theorem C1_update_residual_gate_witness :
    (EigSpec trivEig ∧ WF wSt ∧ wSt.rmin ≤ wSt.rmax ∧
      0 < colNormSq wMat1.reshapeCol ∧ (0 : ℚ) ≤ wSt.thres ∧
      wSt.Ux.cols ≤ wSt.rmax ∧ wSt.Uy.cols ≤ wSt.rmax) ∧
    (residExceeds wSt.thres wSt.Ux wMat1.reshapeCol = false →
      (SDMD.update (fun _ => 1) trivEig wSt wMat1 wMat1).2.1 = Status.NONE ∧
      (SDMD.update (fun _ => 1) trivEig wSt wMat1 wMat1).1.Ux.cols = wSt.Ux.cols) :=
  ⟨⟨trivEig_spec, by decide, by decide,
      by norm_num [colNormSq, wMat1, Mat.reshapeCol, Finset.sum_range_one],
      by norm_num [wSt], by decide, by decide⟩,
    (C1_update_residual_gate (fun _ => 1) trivEig wSt wMat1 wMat1 trivEig_spec (by decide)
      (by decide)
      (by norm_num [colNormSq, wMat1, Mat.reshapeCol, Finset.sum_range_one])
      (by norm_num [colNormSq, wMat1, Mat.reshapeCol, Finset.sum_range_one])
      (by norm_num [wSt]) (by decide) (by decide)).1.1⟩

/-- C2: rank stays in `[rmin, rmax]`.  First conjunct, construction: when
both initial batches offer at least `rmin` singular directions, both bases
come out with exactly `rmin` columns.  Second conjunct, preservation: from
any state whose statistics shapes are consistent and whose basis widths lie
in `[rmin, rmax]`, a completed `update` leaves both widths in
`[rmin, rmax]` again. -/
theorem C2_rank_bounds :
    (∀ (svd : Mat → Mat × List ℚ × Mat) (X Y : Mat) (rmin rmax : Nat) (thres rho : ℚ),
        1 ≤ rmin → rmin ≤ ((svd X).1).cols → rmin ≤ ((svd Y).1).cols →
        (sDMD_base_init svd X Y rmin rmax thres rho).map
            (fun st => (st.Ux.cols, st.Uy.cols)) = some (rmin, rmin)) ∧
    (∀ (nrm : Mat → ℚ) (eig : Mat → List ℚ × Mat) (st : SDMD) (x y : Mat),
        EigSpec eig → WF st → st.rmin ≤ st.rmax →
        st.rmin ≤ st.Ux.cols → st.Ux.cols ≤ st.rmax →
        st.rmin ≤ st.Uy.cols → st.Uy.cols ≤ st.rmax →
        (st.rmin ≤ (SDMD.update nrm eig st x y).1.Ux.cols ∧
          (SDMD.update nrm eig st x y).1.Ux.cols ≤ st.rmax) ∧
        (st.rmin ≤ (SDMD.update nrm eig st x y).1.Uy.cols ∧
          (SDMD.update nrm eig st x y).1.Uy.cols ≤ st.rmax)) := by
  constructor
  · intro svd X Y rmin rmax thres rho h1 hX hY
    have hr1 : (1 : ℚ) ≤ (rmin : ℚ) := by exact_mod_cast h1
    unfold sDMD_base_init truncatedSVD
    simp [hr1, Int.floor_natCast, Int.toNat_natCast]
    omega
  · intro nrm eig st x y heig hwf hrr hx1 hx2 hy1 hy2
    obtain ⟨h1, h2, h3, h4, h5, h6⟩ := hwf
    rw [update_Ux_cols_char nrm eig st x y heig h3, update_Uy_cols_char nrm eig st x y heig h5]
    refine ⟨⟨?_, ?_⟩, ⟨?_, ?_⟩⟩ <;> split_ifs <;> omega

/-- C2 witness: the preservation conjunct instantiated at the concrete
fixture state with every hypothesis discharged by evaluation. -/
theorem C2_rank_bounds_witness :
    (EigSpec trivEig ∧ WF wSt ∧ wSt.rmin ≤ wSt.rmax ∧ wSt.rmin ≤ wSt.Ux.cols ∧
      wSt.Ux.cols ≤ wSt.rmax ∧ wSt.rmin ≤ wSt.Uy.cols ∧ wSt.Uy.cols ≤ wSt.rmax) ∧
    ((wSt.rmin ≤ (SDMD.update (fun _ => 1) trivEig wSt wMat1 wMat1).1.Ux.cols ∧
        (SDMD.update (fun _ => 1) trivEig wSt wMat1 wMat1).1.Ux.cols ≤ wSt.rmax) ∧
     (wSt.rmin ≤ (SDMD.update (fun _ => 1) trivEig wSt wMat1 wMat1).1.Uy.cols ∧
        (SDMD.update (fun _ => 1) trivEig wSt wMat1 wMat1).1.Uy.cols ≤ wSt.rmax)) :=
  ⟨⟨trivEig_spec, by decide, by decide, by decide, by decide, by decide, by decide⟩,
    C2_rank_bounds.2 (fun _ => 1) trivEig wSt wMat1 wMat1 trivEig_spec (by decide) (by decide)
      (by decide) (by decide) (by decide) (by decide)⟩

/-- C3: the statistics shape invariant (`Q` is `(rank(Uy), rank(Ux))`,
`Pinvx` square of size `rank(Ux)`, `Pinvy` square of size `rank(Uy)`) holds
for every state produced by `sDMD_base.__init__` and is preserved by every
call to `sDMD_base.update`. -/
theorem C3_statistic_shapes :
    (∀ (svd : Mat → Mat × List ℚ × Mat) (X Y : Mat) (rmin rmax : Nat) (thres rho : ℚ)
        (st : SDMD), sDMD_base_init svd X Y rmin rmax thres rho = some st → WF st) ∧
    (∀ (nrm : Mat → ℚ) (eig : Mat → List ℚ × Mat) (st : SDMD) (x y : Mat),
        WF st → WF (SDMD.update nrm eig st x y).1) := by
  constructor
  · intro svd X Y rmin rmax thres rho st h
    unfold sDMD_base_init at h
    rcases hX : truncatedSVD svd X (rmin : ℚ) with _ | ux <;>
      rcases hY : truncatedSVD svd Y (rmin : ℚ) with _ | uy <;>
      rw [hX, hY] at h <;> simp at h
    subst h
    exact ⟨rfl, rfl, rfl, rfl, rfl, rfl⟩
  · intro nrm eig st x y hwf
    unfold SDMD.update stage12
    exact regression_WF _ _ _
      (compressY_WF _ _ _ (compressX_WF _ _ _ (augY_WF _ _ _ rfl (augX_WF _ _ _ rfl hwf))))

/-- C3 witness: the preservation conjunct instantiated at the concrete
fixture state with its hypothesis discharged by evaluation. -/
theorem C3_statistic_shapes_witness :
    WF wSt ∧ WF (SDMD.update (fun _ => 1) trivEig wSt wMat1 wMat1).1 :=
  ⟨by decide, C3_statistic_shapes.2 (fun _ => 1) trivEig wSt wMat1 wMat1 (by decide)⟩

/-- C4: the regression step of every `update` re-projects the (reshaped)
inputs into the bases left by the augmentation and compression stages and
sets `Q ← ρQ + ytilde·xtilde^T`, `Pinvx ← ρPinvx + xtilde·xtilde^T`,
`Pinvy ← ρPinvy + ytilde·ytilde^T`; the stages leave `rho` untouched, so
the `ρ` used is the one set by the constructor, which is `1` for `halflife = None` and
`2 ^ (-1/halflife)` otherwise (`rhoOf`); and `rho` has no influence on
either returned status, in particular none on the augmentation residual
test. -/
theorem C4_regression_and_rho :
    (∀ (nrm : Mat → ℚ) (eig : Mat → List ℚ × Mat) (st : SDMD) (x y : Mat),
      (SDMD.update nrm eig st x y).1.Q =
        (Mat.smul (stage12 nrm eig st x.reshapeCol y.reshapeCol).1.rho
            (stage12 nrm eig st x.reshapeCol y.reshapeCol).1.Q).add
          (((stage12 nrm eig st x.reshapeCol y.reshapeCol).1.Uy.transpose.mul
              y.reshapeCol).mul
            ((stage12 nrm eig st x.reshapeCol y.reshapeCol).1.Ux.transpose.mul
              x.reshapeCol).transpose) ∧
      (SDMD.update nrm eig st x y).1.Pinvx =
        (Mat.smul (stage12 nrm eig st x.reshapeCol y.reshapeCol).1.rho
            (stage12 nrm eig st x.reshapeCol y.reshapeCol).1.Pinvx).add
          (((stage12 nrm eig st x.reshapeCol y.reshapeCol).1.Ux.transpose.mul
              x.reshapeCol).mul
            ((stage12 nrm eig st x.reshapeCol y.reshapeCol).1.Ux.transpose.mul
              x.reshapeCol).transpose) ∧
      (SDMD.update nrm eig st x y).1.Pinvy =
        (Mat.smul (stage12 nrm eig st x.reshapeCol y.reshapeCol).1.rho
            (stage12 nrm eig st x.reshapeCol y.reshapeCol).1.Pinvy).add
          (((stage12 nrm eig st x.reshapeCol y.reshapeCol).1.Uy.transpose.mul
              y.reshapeCol).mul
            ((stage12 nrm eig st x.reshapeCol y.reshapeCol).1.Uy.transpose.mul
              y.reshapeCol).transpose)) ∧
    (∀ (nrm : Mat → ℚ) (eig : Mat → List ℚ × Mat) (st : SDMD) (x y : Mat),
      (stage12 nrm eig st x y).1.rho = st.rho) ∧
    (rhoOf none = 1 ∧ ∀ h : ℝ, rhoOf (some h) = (2 : ℝ) ^ (-1 / h)) ∧
    (∀ (nrm : Mat → ℚ) (eig : Mat → List ℚ × Mat) (st : SDMD) (x y : Mat) (r : ℚ),
      (SDMD.update nrm eig { st with rho := r } x y).2.1 =
        (SDMD.update nrm eig st x y).2.1 ∧
      (SDMD.update nrm eig { st with rho := r } x y).2.2 =
        (SDMD.update nrm eig st x y).2.2) := by
  refine ⟨fun nrm eig st x y => ⟨rfl, rfl, rfl⟩, ?_, ⟨rfl, fun h => rfl⟩, ?_⟩
  · intro nrm eig st x y
    simp [stage12, compressY_rho, compressX_rho, augY_rho, augX_rho]
  · intro nrm eig st x y r
    constructor <;> simp only [update_sx_char, update_sy_char]

/-- C6: `predict_horizon` raises its dimension `ValueError` — checked
before any rollout computation — exactly when `x_hist` does not have `nx`
rows and at least `s + f - 1` columns, or `u_future` does not have `nu`
rows and at least `steps + f - 1` columns; when both shape conditions hold
the validation passes and no dimension error is raised. -/
theorem C6_horizon_validation (pinv : Mat → Mat) (st : SDMDc) (xh u : Mat) (steps : Nat) :
    (predict_horizon pinv st xh u steps).2 = Except.error PredErr.dimError ↔
      (xh.rows ≠ st.nx ∨ xh.cols < st.s + st.f - 1 ∨
        u.rows ≠ st.nu ∨ u.cols < steps + st.f - 1) := by
  rcases hb : horizonBody pinv st xh u steps with _ | M <;>
    by_cases h1 : xh.rows ≠ st.nx ∨ xh.cols < st.s + st.f - 1 <;>
    by_cases h2 : u.rows ≠ st.nu ∨ u.cols < steps + st.f - 1 <;>
    simp [predict_horizon, h1, h2, hb]

/-- C7: the single-step predictor of `sDMDc` is a total function which
returns the all-NaN sentinel (embedded as `none`) exactly when the
augmented input has a row count that disagrees with that of `Ux`, and otherwise the first
`nx` rows of `Uy @ (A @ (Ux^T @ aug))` as an `(nx, 1)` column, where
`A = Q @ pinv(Pinvx)`.  The untrained-model guard is vacuous for a
constructed instance, and under exact total arithmetic the `try/except`
numeric-failure arm cannot fire. -/
theorem C7_predict_next (pinv : Mat → Mat) (st : SDMDc) (aug : Mat)
    (hrows : st.nx ≤ st.core.Uy.rows) :
    predict_next_raw_state_from_augmented pinv st aug =
      if aug.rows = st.core.Ux.rows then
        some ⟨st.nx, 1, fun i _ =>
          (st.core.Uy.mul ((st.core.Q.mul (pinv st.core.Pinvx)).mul
            (st.core.Ux.transpose.mul aug))).entry i 0⟩
      else none := by
  unfold predict_next_raw_state_from_augmented
  by_cases h : aug.rows = st.core.Ux.rows
  · simp [h, Mat.takeRowsCol, Nat.min_eq_left hrows]
  · simp [h]

/-- C7 witness: the theorem instantiated at the concrete fixture with its
hypothesis discharged by evaluation. -/
theorem C7_predict_next_witness :
    wStc.nx ≤ wStc.core.Uy.rows ∧
    predict_next_raw_state_from_augmented (fun M => M) wStc wMat21 =
      (if wMat21.rows = wStc.core.Ux.rows then
        some ⟨wStc.nx, 1, fun i _ =>
          (wStc.core.Uy.mul ((wStc.core.Q.mul ((fun M => M) wStc.core.Pinvx)).mul
            (wStc.core.Ux.transpose.mul wMat21))).entry i 0⟩
      else none) :=
  ⟨by decide, C7_predict_next (fun M => M) wStc wMat21 (by decide)⟩

/-- C9: `predict_horizon` does not mutate the live model: in the
state-passing embedding the post-call state (bases, statistics, the three
live delay buffers and all configuration fields) equals the pre-call state
for every oracle, input pair and step count; only the freshly allocated
temporary buffers inside the call are written. -/
theorem C9_horizon_pure (pinv : Mat → Mat) (st : SDMDc) (xh u : Mat) (steps : Nat) :
    (predict_horizon pinv st xh u steps).1 = st := rfl

/-- C5 at the failing input: with `s = f = 1`, `nx = nu = 1`, `steps = 1`
and a control sequence of the documented minimal width
`steps + f - 1 = 1`, the validation passes but the rollout loop reads
`u_future[:, f + 0]`, one column past the end, so the call ends in an
`IndexError` instead of returning the one-step trajectory the claim (and
the docstring of the method) promise. -/
theorem C5_horizon_index_bug :
    (predict_horizon (fun M => M) wStc wMat1 wMat1 1).2 =
      Except.error PredErr.indexError := rfl

theorem mapGetDRange (v : List ℚ) :
    (List.range v.length).map (fun i => v.getD i 0) = v := by
  apply List.ext_getElem
  · simp
  · intro i h1 h2
    simp [List.getD_eq_getElem?_getD, List.getElem?_eq_getElem h2]

theorem permutedDescVals_perm (v : List ℚ) : List.Perm (permutedDescVals v) v := by
  have h := (List.perm_insertionSort
    (fun i j => v.getD j 0 ≤ v.getD i 0) (List.range v.length)).map (fun i => v.getD i 0)
  rw [mapGetDRange v] at h
  exact h

theorem sortDescVals_perm (v : List ℚ) : List.Perm (sortDescVals v) v := by
  unfold sortDescVals sortAscQ
  have h := (List.perm_insertionSort (fun a b : ℚ => a ≤ b) (v.map (fun a => -a))).map
    (fun a : ℚ => -a)
  refine h.trans ?_
  rw [List.map_map]
  simp [Function.comp]

theorem permutedDescVals_sorted (v : List ℚ) :
    (permutedDescVals v).Sorted (fun a b : ℚ => b ≤ a) := by
  unfold permutedDescVals argsortDesc
  haveI : IsTotal Nat (fun i j => v.getD j 0 ≤ v.getD i 0) :=
    ⟨fun a b => le_total (v.getD b 0) (v.getD a 0)⟩
  haveI : IsTrans Nat (fun i j => v.getD j 0 ≤ v.getD i 0) :=
    ⟨fun _ _ _ hab hbc => le_trans hbc hab⟩
  exact List.Pairwise.map _ (fun _ _ h => h) (List.sorted_insertionSort _ _)

theorem sortDescVals_sorted (v : List ℚ) :
    (sortDescVals v).Sorted (fun a b : ℚ => b ≤ a) := by
  unfold sortDescVals sortAscQ
  exact List.Pairwise.map _ (fun _ _ h => neg_le_neg h)
    (List.sorted_insertionSort _ _)

/-- C10: the separately sorted eigenvalue array of the y-side compression,
`-np.sort(-eigval)` coincides with the x-side rule `eigval[argsort(-eigval)]`
on every eigenvalue list, also after truncation to the kept `rmin` entries;
consequently the diagonal that the y-side reduction writes into `Pinvy` is
exactly the eigenvalues of the kept eigenvector columns of `qy`, paired as
on the x side. -/
theorem C10_sort_vs_argsort :
    (∀ v : List ℚ, sortDescVals v = permutedDescVals v) ∧
    (∀ (v : List ℚ) (r : Nat),
      (sortDescVals v).take r = ((argsortDesc v).take r).map (fun i => v.getD i 0)) ∧
    (∀ (eig : Mat → List ℚ × Mat) (st : SDMD) (sy : Status), st.rmax < st.Uy.cols →
      (compressY eig st sy).1.Pinvy =
        diagOf (((argsortDesc (eig st.Pinvy).1).take st.rmin).map
          (fun i => (eig st.Pinvy).1.getD i 0))) := by
  have main : ∀ v : List ℚ, sortDescVals v = permutedDescVals v := by
    intro v
    haveI : IsAntisymm ℚ (fun a b : ℚ => b ≤ a) := ⟨fun a b h1 h2 => le_antisymm h2 h1⟩
    exact List.eq_of_perm_of_sorted
      ((sortDescVals_perm v).trans (permutedDescVals_perm v).symm)
      (sortDescVals_sorted v) (permutedDescVals_sorted v)
  have take : ∀ (v : List ℚ) (r : Nat),
      (sortDescVals v).take r = ((argsortDesc v).take r).map (fun i => v.getD i 0) := by
    intro v r
    rw [main v]
    unfold permutedDescVals
    rw [List.map_take]
  refine ⟨main, take, ?_⟩
  intro eig st sy h
  unfold compressY
  rw [if_pos h]
  simp only
  rw [take]

/-- C10 witness: the compression conjunct instantiated at a concrete state
whose y basis is wider than `rmax`, with the hypothesis discharged by
evaluation. -/
theorem C10_sort_vs_argsort_witness :
    wStRed.rmax < wStRed.Uy.cols ∧
    (compressY trivEig wStRed Status.NONE).1.Pinvy =
      diagOf (((argsortDesc (trivEig wStRed.Pinvy).1).take wStRed.rmin).map
        (fun i => (trivEig wStRed.Pinvy).1.getD i 0)) :=
  ⟨by decide, C10_sort_vs_argsort.2.2 trivEig wStRed Status.NONE (by decide)⟩

/-- C8 at the failing input: calling `truncatedSVD` with `r = -1` — the
value the docstring says performs no truncation — takes neither the
`r >= 1` branch nor the `0 < r < 1` branch, so `rank` is never assigned
and the Python raises `UnboundLocalError` at `U[:, :rank]`; the embedding
returns `none` instead of the documented full factors. -/
theorem C8_truncation_rank_bug :
    truncatedSVD (fun M => (M, [1], M)) wMat1 (-1) = none := rfl
